import Mathlib

/-!
Verification of the ghosler-cli instance lifecycle and migration engine.

The definitions below are a shallow embedding of the JavaScript sources:
`src/utils/utils.js` (version conversion, configuration editing),
`src/utils/pm2/manager.js` (process registry: unique-name generation,
registration, restart, uninstall), `src/utils/commands/update.js`
(the update transaction), `src/utils/commands/migrate.js` (the 1.0.84 and
1.0.86 migration steps) and `src/utils/commands/uninstall.js`.

Strings are modelled as Lean `String` (a list of characters); JavaScript
`string.length` / `substring` are modelled at character granularity, which
coincides with the UTF-16 semantics on the ASCII data these functions
handle.  JavaScript numbers are modelled as exact integers (`Int`/`Nat`),
with `NaN` represented by `Option.none`.
-/

/-- A decimal digit test: JavaScript `parseInt` consumes characters
`'0'`..`'9'` (code points 48..57) in base 10. -/
def isDig (c : Char) : Bool := 48 ≤ c.toNat && c.toNat ≤ 57

/-- Accumulate the numeric value of the leading run of decimal digits,
exactly as `parseInt` does: stop at the first non-digit. -/
def digitsVal : List Char → Nat → Nat
  | [], acc => acc
  | c :: cs, acc => if isDig c then digitsVal cs (10 * acc + (c.toNat - 48)) else acc

/-- Whether the list starts with a decimal digit (so `parseInt` would not
return `NaN`). -/
def leadingDig : List Char → Bool
  | [] => false
  | c :: _ => isDig c

/-- JavaScript `parseInt` skips leading whitespace; we model the common
whitespace characters: space (32), tab (9), newline (10), carriage
return (13). -/
def jsWs (c : Char) : Bool :=
  c.toNat == 32 || c.toNat == 9 || c.toNat == 10 || c.toNat == 13

/-- Model of JavaScript `parseInt(s, 10)` on a character list:
skip whitespace, take an optional sign (`'-'` is 45, `'+'` is 43), then
the value of the leading digit run.  `none` models `NaN`. -/
def parseIntJSChars (l0 : List Char) : Option Int :=
  match l0.dropWhile jsWs with
  | [] => none
  | c :: rest =>
    if c.toNat == 45 then
      if leadingDig rest then some (-(digitsVal rest 0 : Int)) else none
    else if c.toNat == 43 then
      if leadingDig rest then some ((digitsVal rest 0 : Int)) else none
    else if isDig c then some ((digitsVal (c :: rest) 0 : Int)) else none

/-- Model of JavaScript `parseInt(s, 10)` on a string. -/
def parseIntJS (s : String) : Option Int := parseIntJSChars s.data

/-- Source `Utils.versionToInt` (src/utils/utils.js:84):
`parseInt(version.replace(/\./g, ''), 10)` — delete every dot, then parse
the result as a base-10 integer; `none` models `NaN`. -/
def versionToInt (v : String) : Option Int :=
  parseIntJS (String.mk (v.data.filter (fun c => c != '.')))

/-- JavaScript `>=` on two `parseInt` results: any comparison against `NaN`
is false. -/
def versionGe (a b : Option Int) : Bool :=
  match a, b with
  | some x, some y => y ≤ x
  | _, _ => false

/-- The comparable-form version gate used by the migration steps:
`Utils.versionToInt(a) >= Utils.versionToInt(b)`. -/
def vAtLeast (a b : String) : Bool := versionGe (versionToInt a) (versionToInt b)

/-- JavaScript relational `<` on strings compares code units
lexicographically; on the ASCII version strings involved this is plain
lexicographic comparison of the character lists. -/
def jsStrLtChars : List Char → List Char → Bool
  | [], [] => false
  | [], _ :: _ => true
  | _ :: _, [] => false
  | a :: as, b :: bs =>
    if a.toNat < b.toNat then true
    else if b.toNat < a.toNat then false
    else jsStrLtChars as bs

/-- JavaScript `a < b` on strings. -/
def jsStrLt (a b : String) : Bool := jsStrLtChars a.data b.data

/-- JavaScript `a > b` on strings. -/
def jsStrGt (a b : String) : Bool := jsStrLt b a

/-- Decimal digit character for a value `0 ≤ n ≤ 9`. -/
def digitChar (n : Nat) : Char := Char.ofNat (48 + n)

/-- Fuel-indexed decimal printer (the fuel only serves structural
recursion; `natToChars` supplies enough). -/
def natToCharsAux : Nat → Nat → List Char
  | 0, _ => []
  | fuel + 1, n =>
    if n < 10 then [digitChar n]
    else natToCharsAux fuel (n / 10) ++ [digitChar (n % 10)]

/-- Decimal digits of a natural number, as JavaScript template-string
interpolation `${n}` prints it. -/
def natToChars (n : Nat) : List Char := natToCharsAux (n + 1) n

/-- JavaScript `${i}` for an integer (negative values get a minus sign;
only non-negative values occur in the modelled code). -/
def intToString (i : Int) : String :=
  if i < 0 then String.mk ('-' :: natToChars i.natAbs) else String.mk (natToChars i.toNat)

/-- One registry entry as parsed from `pm2 jlist`
(src/utils/pm2/manager.js:233): pid, process name, working directory and
status. -/
structure ProcessInfo where
  pid : Nat
  name : String
  path : String
  status : String
deriving DecidableEq

/-- Source `PM2Manager.baseAppName` (src/utils/pm2/manager.js:11). -/
def baseAppName : String := "ghosler-app"

/-- The per-process body of `PM2Manager.#generateUniqueName`'s loop
(src/utils/pm2/manager.js:266-273): if the process name starts with
`baseName + "-"`, parse the remainder with `parseInt`; `none` covers both
a failed prefix test and a `NaN` parse. -/
def suffixOf (baseName : String) (nm : String) : Option Int :=
  if (baseName.data ++ ['-']).isPrefixOf nm.data then
    parseIntJSChars (nm.data.drop (baseName.data.length + 1))
  else none

/-- Fold step of `#generateUniqueName`: keep the larger suffix
(`if (!isNaN(suffix) && suffix > maxSuffix) maxSuffix = suffix`). -/
def stepMax (baseName : String) (acc : Int) (p : ProcessInfo) : Int :=
  match suffixOf baseName p.name with
  | some s => if acc < s then s else acc
  | none => acc

/-- The `maxSuffix` accumulator of `#generateUniqueName` after the
`forEach` over the registered processes, starting from `0`. -/
def maxSuffix (procs : List ProcessInfo) (baseName : String) : Int :=
  procs.foldl (stepMax baseName) 0

/-- Source `PM2Manager.#generateUniqueName` (src/utils/pm2/manager.js:262-280):
return `baseName` when no suffix was found and `baseName` itself is free,
otherwise `baseName-(maxSuffix+1)`. -/
def generateUniqueName (procs : List ProcessInfo) (baseName : String) : String :=
  if maxSuffix procs baseName == 0 && !(procs.any (fun p => p.name == baseName)) then
    baseName
  else
    baseName ++ "-" ++ intToString (maxSuffix procs baseName + 1)

/-- The name handed to `#generateUniqueName` by `PM2Manager.register`
(src/utils/pm2/manager.js:35-37): the requested instance name, with
`-<branch>` appended for any non-release branch. -/
def registerBaseName (branch instanceName : String) : String :=
  if branch != "release" then instanceName ++ "-" ++ branch else instanceName

/-- The process name `PM2Manager.register` actually registers with pm2
(src/utils/pm2/manager.js:35-42). -/
def registerName (procs : List ProcessInfo) (branch instanceName : String) : String :=
  generateUniqueName procs (registerBaseName branch instanceName)

/-- Source `PM2Manager.restart` outcome (src/utils/pm2/manager.js:59-84): the
status is the liveness poll result, the message depends on the name and
the status. -/
def restartResult (name : String) (online : Bool) : Bool × String :=
  ( online,
    if online then
      if name == baseAppName then "Ghosler instance was restarted successfully."
      else "Ghosler instance (" ++ name ++ ") was restarted successfully."
    else
      "There was a problem restarting Ghosler instance (" ++ name ++ "). See logs via `ghosler logs error`." )

/-- JavaScript truthiness of an optional string field: absent (or null)
and the empty string are falsy, everything else is truthy. -/
def truthyS : Option String → Bool
  | none => false
  | some s => !(s == "")

/-- The mutable `ghosler` section of an instance's
`config.production.json`, restricted to the fields this system touches:
`branch`, `instance` (field `inst` here, since `instance` is reserved in
Lean) and `port`. -/
structure AppConfig where
  branch : Option String
  inst : Option String
  port : Option Nat
deriving DecidableEq

/-- Field mutation of `Utils.updateConfigurations`
(src/utils/utils.js:290-299): in migration mode backfill `branch` and
`instance` only when currently falsy and leave `port` alone; otherwise
set `branch` and `instance` unconditionally and, when `changePort`, set
`port` to the detected free port. -/
def applyConfigUpdate (branch instName : String) (changePort : Bool)
    (freePort : Nat) (isMigration : Bool) (c : AppConfig) : AppConfig :=
  if isMigration then
    ⟨if truthyS c.branch then c.branch else some branch,
     if truthyS c.inst then c.inst else some instName,
     c.port⟩
  else
    ⟨some branch, some instName, if changePort then some freePort else c.port⟩

/-- A path inside an instance's root directory, as a list of segments. -/
abbrev FsPath := List String

/-- File contents, at the granularity the claims need: plain text, a
parsed `package.json` (optional `name` and `version` fields), a parsed
configuration document (its `ghosler` section), or an opaque backup
archive. -/
inductive FData where
  | text : String → FData
  | pkg : Option String → Option String → FData
  | config : AppConfig → FData
  | zipMark : FData
deriving DecidableEq

/-- An instance's directory tree as a finite map from file paths to
contents (directories are implicit as path prefixes). -/
abbrev Fs := List (FsPath × FData)

/-- Look a file up by path. -/
def fsGet (fs : Fs) (p : FsPath) : Option FData :=
  (fs.find? (fun e => decide (e.1 = p))).map (fun e => e.2)

/-- Write a file at a path (overwriting any previous file there). -/
def fsSet (p : FsPath) (d : FData) (fs : Fs) : Fs :=
  (p, d) :: fs.filter (fun e => !(decide (e.1 = p)))

/-- Model of `fs.rmSync(p, {recursive: true, force: true})`: delete the
file at `p` and everything below it. -/
def fsRemove (p : FsPath) (fs : Fs) : Fs :=
  fs.filter (fun e => !(p.isPrefixOf e.1))

/-- Model of `fs.renameSync(src, dest)` for a single file. -/
def fsRename (src dest : FsPath) (fs : Fs) : Fs :=
  match fsGet fs src with
  | some d => fsSet dest d (fs.filter (fun e => !(decide (e.1 = src))))
  | none => fs

/-- Relative position of `p` below directory `dir`, when it is below. -/
def underDir (dir : FsPath) (p : FsPath) : Option FsPath :=
  if dir.isPrefixOf p then some (p.drop dir.length) else none

/-- Whether a relative path survives the per-level exclusion check used by
`#copyFolderSync` / `#moveFolderSync`: every path segment must avoid the
exclusion list, because the recursion re-checks entry names at each
depth. -/
def allowedRel (exclude : List String) : FsPath → Bool
  | [] => true
  | n :: rest => !(exclude.contains n) && allowedRel exclude rest

/-- The files a recursive copy/move from `src` to `dest` transports. -/
def copyEntries (src dest : FsPath) (exclude : List String) (fs : Fs) : Fs :=
  fs.filterMap (fun e =>
    match underDir src e.1 with
    | some rel => if allowedRel exclude rel then some (dest ++ rel, e.2) else none
    | none => none)

/-- Model of `Backup.#copyFolderSync` (src/utils/commands/backup.js):
recursively copy everything under `src` into `dest`, skipping excluded
entry names at every level; destination files are overwritten. -/
def copyFolder (src dest : FsPath) (exclude : List String) (fs : Fs) : Fs :=
  let copies := copyEntries src dest exclude fs
  fs.filter (fun e => !(copies.any (fun c2 => decide (c2.1 = e.1)))) ++ copies

/-- Model of `Update.#moveFolderSync` (src/unnamed/part_004): like the
copy, but transported source files disappear from `src`. -/
def moveFolder (src dest : FsPath) (exclude : List String) (fs : Fs) : Fs :=
  let moved := copyEntries src dest exclude fs
  fs.filter (fun e =>
    match underDir src e.1 with
    | some rel => !(allowedRel exclude rel)
    | none => !(moved.any (fun m => decide (m.1 = e.1)))) ++ moved

/-- Exclusion list of `Backup` (src/utils/commands/backup.js:15). -/
def backupExcludes : List String :=
  [".idea", "node_modules", ".logs", ".backups", ".temp-backup"]

/-- Backup staging directory `.temp-backup` inside the instance root. -/
def tempBackupDir : FsPath := [".temp-backup"]

/-- Path of the timestamp-named backup artifact
(`.backups/backup_<ts>.zip`, src/utils/commands/backup.js:123-126). -/
def artifactPath (ts : String) : FsPath := [".backups", "backup_" ++ ts ++ ".zip"]

/-- Model of `Backup.#saveFiles` together with `#ensureDirs`
(src/utils/commands/backup.js:75-104): clear any leftover staging
directory, copy the instance tree (minus exclusions) into the staging
directory, zip it into the timestamped artifact, remove the staging
directory. -/
def saveFiles (ts : String) (fs : Fs) : Fs :=
  let fs1 := fsRemove tempBackupDir fs
  let fs2 := copyFolder [] tempBackupDir backupExcludes fs1
  let fs3 := fsSet (artifactPath ts) FData.zipMark fs2
  fsRemove tempBackupDir fs3

/-- Flat (legacy, canonical-for-writes) configuration file location. -/
def flatConfigPath : FsPath := ["config.production.json"]

/-- Nested configuration file location under `configuration/`. -/
def nestedConfigPath : FsPath := ["configuration", "config.production.json"]

/-- Manifest location at the instance root. -/
def packageJsonPath : FsPath := ["package.json"]

/-- Model of `Utils.fileAsJson` for a configuration document: `none` when
the file is missing or does not parse as a configuration. -/
def readConfigAt (fs : Fs) (p : FsPath) : Option AppConfig :=
  match fsGet fs p with
  | some (FData.config c) => some c
  | _ => none

/-- Read of `Utils.updateConfigurations` (src/utils/utils.js:285-287):
the flat location, and the nested one only when the flat read yields
nothing (the `??` operator). -/
def readFirstConfig (fs : Fs) : Option AppConfig :=
  (readConfigAt fs flatConfigPath).orElse (fun _ => readConfigAt fs nestedConfigPath)

/-- Source `Utils.updateConfigurations` (src/utils/utils.js:281-305):
read the configuration (flat location first, nested as fallback), mutate
its fields, and write the result back to the flat location only; when no
configuration can be read, do nothing. -/
def updateConfigurationsFs (branch instName : String) (changePort : Bool)
    (freePort : Nat) (isMigration : Bool) (fs : Fs) : Fs :=
  match readFirstConfig fs with
  | none => fs
  | some c =>
    fsSet flatConfigPath
      (FData.config (applyConfigUpdate branch instName changePort freePort isMigration c)) fs

/-- Result of `Utils.currentGhoslerVersion`: a status string of
`success`/`error` paired with a message. -/
inductive VersionStatus where
  | success : String → VersionStatus
  | error : String → VersionStatus
deriving DecidableEq

/-- Error message of `Utils.currentGhoslerVersion` when no valid manifest
is found. -/
def notInstalledMsg : String := "Are you sure Ghosler instance is running in this directory?"

/-- Source `Utils.currentGhoslerVersion` (src/utils/utils.js:231-267):
success exactly when `package.json` parses, its `version` is truthy and
its `name` is truthy and equal to `"ghosler"`; the success message is the
version string. -/
def currentGhoslerVersionFs (fs : Fs) : VersionStatus :=
  match fsGet fs packageJsonPath with
  | some (FData.pkg nm ver) =>
    if truthyS ver then
      if truthyS nm && (nm == some "ghosler") then VersionStatus.success (ver.getD "")
      else VersionStatus.error (ver.getD "")
    else VersionStatus.error notInstalledMsg
  | _ => VersionStatus.error notInstalledMsg

/-- Result of `Update.#checkVersion`: run the update, stop as already
latest, or propagate a version-reading error. -/
inductive CheckResult where
  | doUpdate : String → CheckResult
  | noUpdate : String → CheckResult
  | failed : String → CheckResult
deriving DecidableEq

/-- Message reported when no newer release exists. -/
def alreadyLatestMsg : String := "Ghosler is already on the latest version"

/-- Source `Update.#checkVersion` (src/unnamed/part_004:178-192): update
exactly when the latest release string is not `'na'` and compares
greater than the installed version string under JavaScript string
comparison. -/
def checkVersionFs (latestVersion : String) (fs : Fs) : CheckResult :=
  match currentGhoslerVersionFs fs with
  | VersionStatus.success cur =>
    if latestVersion != "na" && jsStrGt latestVersion cur
    then CheckResult.doUpdate latestVersion
    else CheckResult.noUpdate alreadyLatestMsg
  | VersionStatus.error m => CheckResult.failed m

/-- Ignore list of `Update` (src/unnamed/part_004:14-26): entries that
survive the pre-move deletion and are never moved out of the scratch
directory. -/
def toIgnore : List String :=
  [".logs", "files", ".backups", "README.md", "LICENSE.md", ".gitignore",
   "config.debug.json", "custom-template.ejs", "config.production.json",
   "configuration", "Dockerfile", ".dockerignore", "docker-install.sh"]

/-- Scratch subdirectory `.update` the new release is extracted into. -/
def scratchDir : FsPath := [".update"]

/-- Source `Update.#deleteUnwantedFiles` (src/unnamed/part_004:128-144):
remove every top-level entry (recursively) whose name is neither in the
ignore list nor the scratch directory. -/
def deleteUnwantedFiles (ignore : List String) (fs : Fs) : Fs :=
  fs.filter (fun e =>
    match e.1 with
    | [] => true
    | n :: _ => ignore.contains n || n == ".update")

/-- Place a collaborator-produced file set below a directory (used for
the extraction step writing into the scratch directory). -/
def addUnder (dir : FsPath) (sub : Fs) (fs : Fs) : Fs :=
  fs.filter (fun e => !(sub.any (fun s2 => decide (dir ++ s2.1 = e.1)))) ++
    sub.map (fun s2 => (dir ++ s2.1, s2.2))

/-- Environment of one update run: backup timestamp, collaborator
outcomes (archive clone, extraction), the extracted file set, and the
liveness outcome of the final restart. -/
structure UpdateEnv where
  ts : String
  cloneOk : Bool
  extractOk : Bool
  extractFiles : Fs
  restartOnline : Bool

/-- The externally visible steps `Update.#update` performs, in order. -/
inductive UpdateAction where
  | backup : UpdateAction
  | clone : UpdateAction
  | extract : UpdateAction
  | removeScratch : UpdateAction
  | deleteOld : UpdateAction
  | moveNew : UpdateAction
  | configWrite : UpdateAction
  | restartProc : UpdateAction
deriving DecidableEq

/-- Outcome reported by the update command. -/
inductive UpdateReport where
  | versionError : String → UpdateReport
  | alreadyLatest : String → UpdateReport
  | cloneFailed : UpdateReport
  | extractFailed : UpdateReport
  | restarted : Bool → String → UpdateReport
deriving DecidableEq

/-- The configuration-refresh step exactly as `Update.#update` invokes it
(src/unnamed/part_004:112-113): branch hard-coded to `'release'`, the
registered instance name, `changePort = false`, migration mode off. -/
def configRefreshStep (name : String) (fs : Fs) : Fs :=
  updateConfigurationsFs "release" name false 2369 false fs

/-- Source `Update.#update` (src/unnamed/part_004:78-124): backup, clone,
extract into the scratch directory (aborting and removing only the
scratch directory when extraction fails), delete everything outside the
ignore list, move the scratch contents into place, drop the scratch
directory, refresh the configuration, restart.  Clone effects live in
the invoker's working directory (outside the instance tree) and are
represented only by their success flag. -/
def updateRun (name : String) (env : UpdateEnv) (fs : Fs) :
    Fs × List UpdateAction × UpdateReport :=
  let fs1 := saveFiles env.ts fs
  if !env.cloneOk then
    (fs1, [UpdateAction.backup, UpdateAction.clone], UpdateReport.cloneFailed)
  else
    let fs2 := addUnder scratchDir env.extractFiles fs1
    if !env.extractOk then
      (fsRemove scratchDir fs2,
       [UpdateAction.backup, UpdateAction.clone, UpdateAction.extract,
        UpdateAction.removeScratch],
       UpdateReport.extractFailed)
    else
      let fs3 := deleteUnwantedFiles toIgnore fs2
      let fs4 := moveFolder scratchDir [] toIgnore fs3
      let fs5 := fsRemove scratchDir fs4
      let fs6 := configRefreshStep name fs5
      let r := restartResult name env.restartOnline
      (fs6,
       [UpdateAction.backup, UpdateAction.clone, UpdateAction.extract,
        UpdateAction.deleteOld, UpdateAction.moveNew, UpdateAction.removeScratch,
        UpdateAction.configWrite, UpdateAction.restartProc],
       UpdateReport.restarted r.1 r.2)

/-- Source `Update.#performTask` after instance resolution
(src/unnamed/part_004:48-69): consult the version check and either stop
(error or already-latest, touching nothing) or run the update
transaction. -/
def performUpdateFs (name latest : String) (env : UpdateEnv) (fs : Fs) :
    Fs × List UpdateAction × UpdateReport :=
  match checkVersionFs latest fs with
  | CheckResult.failed m => (fs, [], UpdateReport.versionError m)
  | CheckResult.noUpdate m => (fs, [], UpdateReport.alreadyLatest m)
  | CheckResult.doUpdate _ => updateRun name env fs

/-- Externally visible actions of the migration steps. -/
inductive MigAction where
  | backfill : String → MigAction
  | forceRegister : String → MigAction
  | restartInst : String → MigAction
  | moveConfig : String → MigAction
deriving DecidableEq

/-- Outcome of the 1.0.84 migration step. -/
inductive MigReport84 where
  | skipped : MigReport84
  | multi : MigReport84
  | registerFailed : MigReport84
  | restarted : Bool → String → MigReport84
deriving DecidableEq

/-- Source `Utils.cliPackageVersion` (src/utils/utils.js:28). -/
def cliPackageVersion : String := "1.0.90"

/-- Modelled from the spec: `PM2Manager.forceRegisterForMigration` is
invoked by `Migrate.#v1_0_84` (src/utils/commands/migrate.js:61) but is
absent from the sources under src.  Per the spec's Process Registry
Adapter contract (start the instance under supervision with the
identifying marker, force a registry refresh, then poll liveness and
report success only when the instance reaches Online), we model its
result as the environment-provided liveness outcome of that poll. -/
def forceRegisterForMigration (registerOnline : Bool)
    (_branch _name _path : String) : Bool :=
  registerOnline

/-- Source `Migrate.#v1_0_84` (src/utils/commands/migrate.js:49-74):
when the CLI version passes the 1.0.84 gate and exactly one process is
registered, backfill its configuration (migration mode, branch
`'release'`), force-register it, and on success restart it with
dependency reinstall, reporting the restart outcome. -/
def v1_0_84_run (cliVersion : String) (procs : List ProcessInfo)
    (registerOnline restartOnline : Bool) (fs : Fs) :
    Fs × List MigAction × MigReport84 :=
  if vAtLeast cliVersion "1.0.84" then
    match procs with
    | [p] =>
      let fs1 := updateConfigurationsFs "release" p.name false 2369 true fs
      if forceRegisterForMigration registerOnline "release" p.name p.path then
        let r := restartResult p.name restartOnline
        (fs1,
         [MigAction.backfill p.name, MigAction.forceRegister p.name,
          MigAction.restartInst p.name],
         MigReport84.restarted r.1 r.2)
      else
        (fs1, [MigAction.backfill p.name, MigAction.forceRegister p.name],
         MigReport84.registerFailed)
    | _ => (fs, [], MigReport84.multi)
  else (fs, [], MigReport84.skipped)

/-- Source `Migrate.#v1_0_86`, body for one process
(src/utils/commands/migrate.js:91-123): when the flat configuration file
exists, read the instance's own `package.json` (an unreadable manifest or
a missing `version` field throws, modelled as `none`), and when the
parsed version passes the step's minimum (comparable form at least 94,
that is version 0.94), move the flat file into the `configuration/`
directory and restart the instance; in every other case the instance's
tree is untouched. -/
def v1_0_86_instance (p : ProcessInfo) (fs : Fs) : Option (Fs × List MigAction) :=
  match fsGet fs flatConfigPath with
  | some _ =>
    match fsGet fs packageJsonPath with
    | some (FData.pkg _ over) =>
      match over with
      | some v =>
        if versionGe (versionToInt v) (some 94) then
          some (fsRename flatConfigPath nestedConfigPath fs,
                [MigAction.moveConfig p.name, MigAction.restartInst p.name])
        else some (fs, [])
      | none => none
    | _ => none
  | none => some (fs, [])

/-- Externally visible actions of the uninstall command. -/
inductive UninstallAction where
  | pm2Delete : String → UninstallAction
  | warnSkip : UninstallAction
  | deleteContents : String → UninstallAction
deriving DecidableEq

/-- Cache lookup used by `PM2Manager.uninstall`
(src/utils/pm2/manager.js:123). -/
def findProcess (cached : List ProcessInfo) (name : String) : Option ProcessInfo :=
  cached.find? (fun p => p.name == name)

/-- Source `Uninstall.#performTask` with `PM2Manager.uninstall`
(src/utils/commands/uninstall.js:31-60, src/utils/pm2/manager.js:122-134):
always issue the supervisor delete first; then, with the path the
registry resolved (absent when the instance was unknown, and a falsy
empty-string path also counts as unresolvable), either warn and skip or
delete the directory contents. -/
def uninstallTask (cached : List ProcessInfo) (name : String) : List UninstallAction :=
  let instPath := (findProcess cached name).map (fun p => p.path)
  UninstallAction.pm2Delete name ::
    (match instPath with
     | some pth =>
       if pth == "" then [UninstallAction.warnSkip]
       else [UninstallAction.deleteContents pth]
     | none => [UninstallAction.warnSkip])

theorem acc_le_stepMax (b : String) (acc : Int) (p : ProcessInfo) :
    acc ≤ stepMax b acc p := by
  unfold stepMax
  cases h : suffixOf b p.name with
  | none => exact le_refl acc
  | some s => simp only []; split <;> omega

theorem foldl_stepMax_le (b : String) (l : List ProcessInfo) :
    ∀ acc : Int, acc ≤ l.foldl (stepMax b) acc := by
  induction l with
  | nil => intro acc; exact le_refl acc
  | cons p l ih =>
    intro acc
    exact le_trans (acc_le_stepMax b acc p) (ih (stepMax b acc p))

theorem suffix_le_foldl (b : String) (l : List ProcessInfo) :
    ∀ (acc : Int) (p : ProcessInfo), p ∈ l → ∀ s : Int,
      suffixOf b p.name = some s → s ≤ l.foldl (stepMax b) acc := by
  induction l with
  | nil => intro acc p hp; cases hp
  | cons q l ih =>
    intro acc p hp s hs
    cases hp with
    | head =>
      have h1 : s ≤ stepMax b acc q := by
        unfold stepMax; rw [hs]; simp only []; split <;> omega
      exact le_trans h1 (foldl_stepMax_le b l _)
    | tail _ hmem => exact ih _ p hmem s hs

theorem isDig_digitChar (n : Nat) (h : n < 10) : isDig (digitChar n) = true := by
  interval_cases n <;> decide

theorem digitChar_toNat (n : Nat) (h : n < 10) : (digitChar n).toNat = 48 + n := by
  interval_cases n <;> decide

theorem natToCharsAux_digits (fuel : Nat) :
    ∀ n, n < fuel → ∀ c ∈ natToCharsAux fuel n, isDig c = true := by
  induction fuel with
  | zero => intro n h; exact absurd h (Nat.not_lt_zero n)
  | succ fuel ih =>
    intro n hn c hc
    unfold natToCharsAux at hc
    by_cases h10 : n < 10
    · rw [if_pos h10] at hc
      rcases List.mem_singleton.mp hc with rfl
      exact isDig_digitChar n h10
    · rw [if_neg h10] at hc
      rcases List.mem_append.mp hc with h | h
      · have hpos : 0 < n := by omega
        have hlt : n / 10 < n := Nat.div_lt_self hpos (by omega)
        exact ih (n / 10) (by omega) c h
      · rcases List.mem_singleton.mp h with rfl
        exact isDig_digitChar (n % 10) (Nat.mod_lt n (by omega))

theorem natToCharsAux_ne_nil (fuel n : Nat) (h : n < fuel) :
    natToCharsAux fuel n ≠ [] := by
  cases fuel with
  | zero => exact absurd h (Nat.not_lt_zero n)
  | succ fuel =>
    unfold natToCharsAux
    split
    · simp
    · simp

theorem digitsVal_append (xs ys : List Char) (hxs : ∀ c ∈ xs, isDig c = true) :
    ∀ acc, digitsVal (xs ++ ys) acc = digitsVal ys (digitsVal xs acc) := by
  induction xs with
  | nil => intro acc; rfl
  | cons c cs ih =>
    intro acc
    have hc : isDig c = true := hxs c (List.mem_cons_self c cs)
    simp only [List.cons_append, digitsVal, hc, if_true]
    exact ih (fun d hd => hxs d (List.mem_cons_of_mem c hd)) _

theorem digitsVal_natToCharsAux (fuel : Nat) :
    ∀ n, n < fuel → ∀ acc,
      digitsVal (natToCharsAux fuel n) acc =
        acc * 10 ^ (natToCharsAux fuel n).length + n := by
  induction fuel with
  | zero => intro n h; exact absurd h (Nat.not_lt_zero n)
  | succ fuel ih =>
    intro n hn acc
    unfold natToCharsAux
    by_cases h10 : n < 10
    · rw [if_pos h10]
      simp only [digitsVal, isDig_digitChar n h10, if_true,
        digitChar_toNat n h10, List.length_singleton, pow_one]
      omega
    · rw [if_neg h10]
      have hpos : 0 < n := by omega
      have hlt : n / 10 < n := Nat.div_lt_self hpos (by omega)
      have hdiv : n / 10 < fuel := by omega
      have hmod : n % 10 < 10 := Nat.mod_lt n (by omega)
      rw [digitsVal_append _ _ (natToCharsAux_digits fuel (n / 10) hdiv)]
      rw [ih (n / 10) hdiv acc]
      simp only [digitsVal, isDig_digitChar (n % 10) hmod, if_true,
        digitChar_toNat (n % 10) hmod, List.length_append,
        List.length_singleton, pow_succ]
      have hdm : 10 * (n / 10) + n % 10 = n := by omega
      generalize (10 : Nat) ^ (natToCharsAux fuel (n / 10)).length = k
      ring_nf
      omega

theorem parseIntJSChars_natToChars (n : Nat) :
    parseIntJSChars (natToChars n) = some ((n : Nat) : Int) := by
  have hn : n < n + 1 := Nat.lt_succ_self n
  have hdig := natToCharsAux_digits (n + 1) n hn
  have hne := natToCharsAux_ne_nil (n + 1) n hn
  have hval := digitsVal_natToCharsAux (n + 1) n hn 0
  unfold natToChars
  cases hl : natToCharsAux (n + 1) n with
  | nil => exact absurd hl hne
  | cons c rest =>
    rw [hl] at hval hdig
    have hc : isDig c = true := hdig c (List.mem_cons_self c rest)
    have hcrange : 48 ≤ c.toNat ∧ c.toNat ≤ 57 := by
      have h := hc; unfold isDig at h; simpa using h
    have hws : jsWs c = false := by
      unfold jsWs
      simp only [Bool.or_eq_false_iff, beq_eq_false_iff_ne, ne_eq]
      omega
    have h45 : (c.toNat == 45) = false := by
      simp only [beq_eq_false_iff_ne, ne_eq]; omega
    have h43 : (c.toNat == 43) = false := by
      simp only [beq_eq_false_iff_ne, ne_eq]; omega
    unfold parseIntJSChars
    simp only [List.dropWhile, hws, h45, h43, hc, Bool.false_eq_true, if_false, if_true]
    simp only [zero_mul, zero_add] at hval
    rw [hval]

theorem suffixOf_generated (b : String) (M : Int) (hM : 0 ≤ M) :
    suffixOf b (b ++ "-" ++ intToString (M + 1)) = some (M + 1) := by
  have hpos : ¬ (M + 1 < 0) := by omega
  unfold intToString
  rw [if_neg hpos]
  have hdata : (b ++ "-" ++ String.mk (natToChars (M + 1).toNat)).data
      = (b.data ++ ['-']) ++ natToChars (M + 1).toNat := rfl
  unfold suffixOf
  rw [hdata]
  have hpre : (b.data ++ ['-']).isPrefixOf ((b.data ++ ['-']) ++ natToChars (M + 1).toNat) = true :=
    List.isPrefixOf_iff_prefix.mpr (List.prefix_append _ _)
  rw [if_pos hpre]
  have hlen : b.data.length + 1 = (b.data ++ ['-']).length := by simp
  rw [hlen, List.drop_left, parseIntJSChars_natToChars]
  congr 1
  omega

theorem jsStrLtChars_irrefl (l : List Char) : jsStrLtChars l l = false := by
  induction l with
  | nil => rfl
  | cons c cs ih => simp [jsStrLtChars, ih]

/-- C2 (amended): the name generated by `#generateUniqueName` is never a
currently registered name; and when no registered name equals the base
name and no registered name parses as `base-<number>` (so the scanned
maximal suffix is zero), the base name itself is returned. -/
theorem claim_C2_amended (procs : List ProcessInfo) (b : String) (p : ProcessInfo)
    (hp : p ∈ procs) :
    generateUniqueName procs b ≠ p.name ∧
    (maxSuffix procs b = 0 → (∀ q ∈ procs, q.name ≠ b) →
      generateUniqueName procs b = b) := by
  constructor
  · intro heq
    unfold generateUniqueName at heq
    by_cases hguard :
        (maxSuffix procs b == 0 && !(procs.any fun q => q.name == b)) = true
    · rw [if_pos hguard] at heq
      rw [Bool.and_eq_true] at hguard
      rcases hguard with ⟨_, hnot⟩
      have hany : (procs.any fun q => q.name == b) = true :=
        List.any_eq_true.mpr ⟨p, hp, by rw [← heq]; simp⟩
      rw [hany] at hnot
      exact Bool.noConfusion hnot
    · rw [if_neg hguard] at heq
      have hM : (0 : Int) ≤ maxSuffix procs b := foldl_stepMax_le b procs 0
      have hsfx : suffixOf b p.name = some (maxSuffix procs b + 1) := by
        rw [← heq]; exact suffixOf_generated b (maxSuffix procs b) hM
      have hle := suffix_le_foldl b procs 0 p hp _ hsfx
      unfold maxSuffix at hsfx hle
      omega
  · intro h0 hfree
    unfold generateUniqueName
    have h1 : (maxSuffix procs b == 0) = true := by simp [h0]
    have h2 : (procs.any fun q => q.name == b) = false := by
      cases hh : (procs.any fun q => q.name == b) with
      | false => rfl
      | true =>
        rcases List.any_eq_true.mp hh with ⟨q, hq, hqb⟩
        exact absurd (by simpa using hqb) (hfree q hq)
    rw [if_pos (by rw [h1, h2]; rfl)]

/-- Witness for C2 (amended) at a registry holding one unrelated process. -/
theorem claim_C2_amended_witness :
    generateUniqueName [⟨0, "other-app", "/srv", "online"⟩] "ghosler-app" ≠ "other-app" ∧
    generateUniqueName [⟨0, "other-app", "/srv", "online"⟩] "ghosler-app" = "ghosler-app" := by
  have h := claim_C2_amended [⟨0, "other-app", "/srv", "online"⟩] "ghosler-app"
      ⟨0, "other-app", "/srv", "online"⟩ (by decide)
  exact ⟨h.1, h.2 (by decide) (by decide)⟩

/-- Counterexample to C2 as stated: with only `ghosler-app-2` registered,
no instance is named `ghosler-app`, yet `#generateUniqueName` returns
`ghosler-app-3`, not the free base name. -/
theorem claim_C2_counterexample :
    (∀ q ∈ [(⟨0, "ghosler-app-2", "/srv/app", "online"⟩ : ProcessInfo)],
        ProcessInfo.name q ≠ "ghosler-app") ∧
    generateUniqueName [⟨0, "ghosler-app-2", "/srv/app", "online"⟩] "ghosler-app"
      = "ghosler-app-3" ∧
    generateUniqueName [⟨0, "ghosler-app-2", "/srv/app", "online"⟩] "ghosler-app"
      ≠ "ghosler-app" := by
  refine ⟨?_, ?_, ?_⟩ <;> decide

theorem generateUniqueName_length (procs : List ProcessInfo) (b : String) :
    b.data.length ≤ (generateUniqueName procs b).data.length := by
  unfold generateUniqueName
  split
  · exact le_refl _
  · have hdata : (b ++ "-" ++ intToString (maxSuffix procs b + 1)).data
        = b.data ++ ['-'] ++ (intToString (maxSuffix procs b + 1)).data := rfl
    rw [hdata]
    simp [List.length_append]

/-- C10: for a non-release branch, registration hands
`<requested name>-<branch>` to unique-name generation, and the name
finally registered can never be the bare requested name. -/
theorem claim_C10 (procs : List ProcessInfo) (branch instanceName : String)
    (h : branch ≠ "release") :
    registerBaseName branch instanceName = instanceName ++ "-" ++ branch ∧
    registerName procs branch instanceName ≠ instanceName := by
  have hb : (branch != "release") = true := by simp [h]
  have hrb : registerBaseName branch instanceName = instanceName ++ "-" ++ branch := by
    unfold registerBaseName; rw [if_pos hb]
  refine ⟨hrb, ?_⟩
  intro heq
  have h2 := generateUniqueName_length procs (registerBaseName branch instanceName)
  unfold registerName at heq
  rw [heq] at h2
  rw [hrb] at h2
  have hdata : (instanceName ++ "-" ++ branch).data
      = instanceName.data ++ ['-'] ++ branch.data := rfl
  rw [hdata] at h2
  simp [List.length_append] at h2

/-- Witness for C10: installing from branch `master` under the requested
name `ghosler-app` never registers the bare name. -/
theorem claim_C10_witness :
    registerBaseName "master" "ghosler-app" = "ghosler-app" ++ "-" ++ "master" ∧
    registerName [] "master" "ghosler-app" ≠ "ghosler-app" :=
  claim_C10 [] "master" "ghosler-app" (by decide)

/-- C4: when the installed version string equals the latest release
string, the update command stops at the version gate: the filesystem is
returned untouched, no step (backup, clone, extraction, deletion, move,
restart) is performed, and the report is the already-latest message. -/
theorem claim_C4 (name : String) (env : UpdateEnv) (fs : Fs) (v : String)
    (hcur : currentGhoslerVersionFs fs = VersionStatus.success v) :
    performUpdateFs name v env fs = (fs, [], UpdateReport.alreadyLatest alreadyLatestMsg) := by
  unfold performUpdateFs checkVersionFs
  rw [hcur]
  have hgt : jsStrGt v v = false := jsStrLtChars_irrefl v.data
  simp [hgt]

/-- Witness for C4 at an instance already on version 1.0.5. -/
theorem claim_C4_witness :
    performUpdateFs "ghosler-app" "1.0.5" ⟨"T", true, true, [], true⟩
        [(packageJsonPath, FData.pkg (some "ghosler") (some "1.0.5"))]
      = ([(packageJsonPath, FData.pkg (some "ghosler") (some "1.0.5"))], [],
         UpdateReport.alreadyLatest alreadyLatestMsg) :=
  claim_C4 "ghosler-app" ⟨"T", true, true, [], true⟩
    [(packageJsonPath, FData.pkg (some "ghosler") (some "1.0.5"))] "1.0.5" (by decide)

/-- Counterexample to C3 as stated: with installed version `1.0.9` and
latest release `1.0.10`, the comparable-form integers say the release is
strictly newer (1010 > 109), yet `#checkVersion` — which compares the
raw strings with JavaScript `>` — reports already-latest and the
destructive path does not run. -/
theorem claim_C3_counterexample :
    checkVersionFs "1.0.10" [(packageJsonPath, FData.pkg (some "ghosler") (some "1.0.9"))]
      = CheckResult.noUpdate alreadyLatestMsg ∧
    performUpdateFs "ghosler-app" "1.0.10" ⟨"T", true, true, [], true⟩
        [(packageJsonPath, FData.pkg (some "ghosler") (some "1.0.9"))]
      = ([(packageJsonPath, FData.pkg (some "ghosler") (some "1.0.9"))], [],
         UpdateReport.alreadyLatest alreadyLatestMsg) ∧
    versionToInt "1.0.10" = some 1010 ∧ versionToInt "1.0.9" = some 109 := by
  refine ⟨?_, ?_, ?_, ?_⟩ <;> decide

/-- C3 (amended): the update decision does not use the comparable-form
integers at all; the destructive path runs exactly when the latest
release string is not `'na'` and is greater than the installed version
string under JavaScript lexicographic string comparison. -/
theorem claim_C3_amended (name latest : String) (env : UpdateEnv) (fs : Fs) (v : String)
    (hcur : currentGhoslerVersionFs fs = VersionStatus.success v) :
    (checkVersionFs latest fs = CheckResult.doUpdate latest ↔
      (latest ≠ "na" ∧ jsStrGt latest v = true)) ∧
    (checkVersionFs latest fs = CheckResult.doUpdate latest →
      performUpdateFs name latest env fs = updateRun name env fs) := by
  constructor
  · unfold checkVersionFs
    rw [hcur]
    by_cases hna : latest = "na"
    · subst hna; simp
    · cases hgt : jsStrGt latest v <;> simp [hgt, hna]
  · intro h
    unfold performUpdateFs
    rw [h]

/-- Counterexample to C7 as stated: a configuration whose `branch` field
is set — to the empty string — is not left unchanged by the migration
update: the JavaScript falsiness test treats it as absent and overwrites
it with the supplied branch. -/
theorem claim_C7_counterexample :
    (readConfigAt
        [(flatConfigPath, FData.config ⟨some "", some "custom-inst", some 2369⟩)]
        flatConfigPath).map AppConfig.branch = some (some "") ∧
    (readConfigAt
        (updateConfigurationsFs "release" "ghosler-app" false 2369 true
          [(flatConfigPath, FData.config ⟨some "", some "custom-inst", some 2369⟩)])
        flatConfigPath).map AppConfig.branch = some (some "release") ∧
    (some "" : Option String) ≠ some "release" := by
  refine ⟨?_, ?_, ?_⟩ <;> decide

/-- C7 (amended): in migration mode the configuration update writes the
mutated document to the flat location, and the mutation treats every
field independently: the port is never modified; a branch or instance
field holding a truthy (non-empty) value is left unchanged; a branch or
instance field that is absent, null or empty is backfilled with the
supplied value. -/
theorem claim_C7_amended (br nm : String) (cp : Bool) (fp : Nat) (fs : Fs)
    (c : AppConfig) (hread : readFirstConfig fs = some c) :
    updateConfigurationsFs br nm cp fp true fs
      = fsSet flatConfigPath
          (FData.config (applyConfigUpdate br nm cp fp true c)) fs ∧
    (applyConfigUpdate br nm cp fp true c).port = c.port ∧
    (truthyS c.branch = true →
      (applyConfigUpdate br nm cp fp true c).branch = c.branch) ∧
    (truthyS c.branch = false →
      (applyConfigUpdate br nm cp fp true c).branch = some br) ∧
    (truthyS c.inst = true →
      (applyConfigUpdate br nm cp fp true c).inst = c.inst) ∧
    (truthyS c.inst = false →
      (applyConfigUpdate br nm cp fp true c).inst = some nm) := by
  refine ⟨?_, ?_, ?_, ?_, ?_, ?_⟩
  · unfold updateConfigurationsFs
    rw [hread]
  · simp [applyConfigUpdate]
  · intro h; simp [applyConfigUpdate, h]
  · intro h; simp [applyConfigUpdate, h]
  · intro h; simp [applyConfigUpdate, h]
  · intro h; simp [applyConfigUpdate, h]

/-- Witness for C7 (amended) at the claim's own example shape: branch
operator-set to `custom`, instance absent — the truthy branch survives,
the absent instance is backfilled, the port is untouched. -/
theorem claim_C7_amended_witness :
    updateConfigurationsFs "release" "ghosler-app" false 2369 true
        [(flatConfigPath, FData.config ⟨some "custom", none, some 2370⟩)]
      = fsSet flatConfigPath
          (FData.config (applyConfigUpdate "release" "ghosler-app" false 2369 true
            ⟨some "custom", none, some 2370⟩))
          [(flatConfigPath, FData.config ⟨some "custom", none, some 2370⟩)] ∧
    (applyConfigUpdate "release" "ghosler-app" false 2369 true
        ⟨some "custom", none, some 2370⟩).branch = some "custom" ∧
    (applyConfigUpdate "release" "ghosler-app" false 2369 true
        ⟨some "custom", none, some 2370⟩).inst = some "ghosler-app" ∧
    (applyConfigUpdate "release" "ghosler-app" false 2369 true
        ⟨some "custom", none, some 2370⟩).port = some 2370 := by
  have h := claim_C7_amended "release" "ghosler-app" false 2369
      [(flatConfigPath, FData.config ⟨some "custom", none, some 2370⟩)]
      ⟨some "custom", none, some 2370⟩ (by decide)
  refine ⟨h.1, ?_, ?_, ?_⟩
  · rw [h.2.2.1 (by decide)]
  · rw [h.2.2.2.2.2 (by decide)]
  · rw [h.2.1]

/-- Counterexample to C9 as stated: an instance recorded with branch
`master` reaches the configuration-refresh step of a successful update
and comes out with branch `release` — the recorded branch is not
preserved (the code hard-codes `'release'`). -/
theorem claim_C9_counterexample :
    (readConfigAt
        (updateRun "ghosler-app" ⟨"T", true, true, [(["app.js"], FData.text "x")], true⟩
          [(flatConfigPath, FData.config ⟨some "master", some "ghosler-app", some 3000⟩),
           (packageJsonPath, FData.pkg (some "ghosler") (some "1.0.5"))]).1
        flatConfigPath).map AppConfig.branch = some (some "release") ∧
    (some "master" : Option String) ≠ some "release" := by
  constructor <;> decide

/-- C9 (amended): the configuration-refresh step of Update writes the
read configuration back with `branch` set to `'release'` unconditionally
(overwriting any recorded branch), the instance field set to the
registered process name, and the port untouched. -/
theorem claim_C9_amended (name : String) (fs : Fs) (c : AppConfig)
    (hread : readFirstConfig fs = some c) :
    configRefreshStep name fs
      = fsSet flatConfigPath (FData.config ⟨some "release", some name, c.port⟩) fs := by
  unfold configRefreshStep updateConfigurationsFs
  rw [hread]
  simp only [applyConfigUpdate, if_false, Bool.false_eq_true]

/-- Witness for C9 (amended). -/
theorem claim_C9_amended_witness :
    configRefreshStep "ghosler-app"
        [(flatConfigPath, FData.config ⟨some "master", some "ghosler-app", some 3000⟩)]
      = fsSet flatConfigPath (FData.config ⟨some "release", some "ghosler-app", some 3000⟩)
          [(flatConfigPath, FData.config ⟨some "master", some "ghosler-app", some 3000⟩)] :=
  claim_C9_amended "ghosler-app"
    [(flatConfigPath, FData.config ⟨some "master", some "ghosler-app", some 3000⟩)]
    ⟨some "master", some "ghosler-app", some 3000⟩ (by decide)

/-- C1: with exactly one registered instance named `ghosler-app` (its
manifest at application version 1.0.83) and the CLI at its own version
1.0.90, the 1.0.84 migration step applies: the configuration is updated
in migration mode (backfilling branch/instance only where falsy, port
untouched), the instance is force-registered and restarted, and the
reported outcome is the success message.  Status of the missing
`forceRegisterForMigration` source is spec-modelled (see its docstring);
the liveness outcomes are taken to be online as the scenario assumes. -/
theorem claim_C1 (p : ProcessInfo) (fs : Fs) (c : AppConfig)
    (hname : p.name = "ghosler-app")
    (_hpkg : fsGet fs packageJsonPath = some (FData.pkg (some "ghosler") (some "1.0.83")))
    (hread : readFirstConfig fs = some c) :
    v1_0_84_run cliPackageVersion [p] true true fs
      = (fsSet flatConfigPath
           (FData.config (applyConfigUpdate "release" p.name false 2369 true c)) fs,
         [MigAction.backfill p.name, MigAction.forceRegister p.name,
          MigAction.restartInst p.name],
         MigReport84.restarted true "Ghosler instance was restarted successfully.") := by
  unfold v1_0_84_run
  rw [if_pos (by decide)]
  simp only [forceRegisterForMigration, if_true]
  unfold updateConfigurationsFs
  rw [hread]
  unfold restartResult
  rw [hname]
  simp [baseAppName]

/-- Witness for C1 at a concrete one-instance world whose configuration
has no branch/instance fields yet. -/
theorem claim_C1_witness :
    v1_0_84_run cliPackageVersion [⟨7, "ghosler-app", "/srv/ghosler", "online"⟩] true true
        [(packageJsonPath, FData.pkg (some "ghosler") (some "1.0.83")),
         (flatConfigPath, FData.config ⟨none, none, some 2369⟩)]
      = (fsSet flatConfigPath
           (FData.config (applyConfigUpdate "release" "ghosler-app" false 2369 true
              ⟨none, none, some 2369⟩))
           [(packageJsonPath, FData.pkg (some "ghosler") (some "1.0.83")),
            (flatConfigPath, FData.config ⟨none, none, some 2369⟩)],
         [MigAction.backfill "ghosler-app", MigAction.forceRegister "ghosler-app",
          MigAction.restartInst "ghosler-app"],
         MigReport84.restarted true "Ghosler instance was restarted successfully.") :=
  claim_C1 ⟨7, "ghosler-app", "/srv/ghosler", "online"⟩
    [(packageJsonPath, FData.pkg (some "ghosler") (some "1.0.83")),
     (flatConfigPath, FData.config ⟨none, none, some 2369⟩)]
    ⟨none, none, some 2369⟩ rfl (by decide) (by decide)

/-- C6: the uninstall flow always issues the supervisor deregistration
first; when the registry cannot resolve a path for the name, the flow is
exactly deregistration followed by the warning, with no deletion; and any
deletion that does occur targets the non-empty path of the resolved
registry entry. -/
theorem claim_C6 (cached : List ProcessInfo) (name : String) :
    (uninstallTask cached name).head? = some (UninstallAction.pm2Delete name) ∧
    ((findProcess cached name).map ProcessInfo.path = none →
      uninstallTask cached name
        = [UninstallAction.pm2Delete name, UninstallAction.warnSkip]) ∧
    (∀ pth, UninstallAction.deleteContents pth ∈ uninstallTask cached name →
      ∃ q, findProcess cached name = some q ∧ q.path = pth ∧ pth ≠ "") := by
  refine ⟨rfl, ?_, ?_⟩
  · intro h
    unfold uninstallTask
    rw [h]
  · intro pth hmem
    unfold uninstallTask at hmem
    cases hfind : findProcess cached name with
    | none => rw [hfind] at hmem; simp at hmem
    | some q =>
      rw [hfind] at hmem
      simp only [Option.map_some'] at hmem
      by_cases hq : (q.path == "") = true
      · rw [if_pos hq] at hmem
        simp at hmem
      · rw [if_neg hq] at hmem
        rcases List.mem_cons.mp hmem with hmem1 | hmem2
        · exact UninstallAction.noConfusion hmem1
        · have h2 : UninstallAction.deleteContents pth = UninstallAction.deleteContents q.path :=
            List.mem_singleton.mp hmem2
          have hpq : pth = q.path := by injection h2
          refine ⟨q, rfl, hpq.symm, ?_⟩
          intro hempty
          exact hq (by rw [← hpq, hempty]; rfl)

/-- C8: the 1.0.86 step leaves an instance untouched whenever its flat
`config.production.json` is absent; and whenever the step changes the
instance's tree at all, the flat file existed, the instance's own
manifest version parsed, that version passed the step's minimum
(comparable form at least 94), and the change is exactly the move of the
flat file into the `configuration/` directory (followed by a restart of
that instance). -/
theorem claim_C8 (p : ProcessInfo) (fs : Fs) :
    (fsGet fs flatConfigPath = none → v1_0_86_instance p fs = some (fs, [])) ∧
    (∀ fs2 acts, v1_0_86_instance p fs = some (fs2, acts) → fs2 ≠ fs →
      ∃ d nm v k, fsGet fs flatConfigPath = some d ∧
        fsGet fs packageJsonPath = some (FData.pkg nm (some v)) ∧
        versionToInt v = some k ∧ 94 ≤ k ∧
        fs2 = fsRename flatConfigPath nestedConfigPath fs ∧
        acts = [MigAction.moveConfig p.name, MigAction.restartInst p.name]) := by
  constructor
  · intro h
    unfold v1_0_86_instance
    rw [h]
  · intro fs2 acts hrun hne
    unfold v1_0_86_instance at hrun
    cases hflat : fsGet fs flatConfigPath with
    | none =>
      rw [hflat] at hrun
      injection hrun with hrun
      injection hrun with h1 h2
      exact absurd h1.symm hne
    | some d =>
      rw [hflat] at hrun
      cases hpkg : fsGet fs packageJsonPath with
      | none => rw [hpkg] at hrun; exact Option.noConfusion hrun
      | some fd =>
        rw [hpkg] at hrun
        cases fd with
        | text t => exact Option.noConfusion hrun
        | config cc => exact Option.noConfusion hrun
        | zipMark => exact Option.noConfusion hrun
        | pkg nm over =>
          cases over with
          | none => exact Option.noConfusion hrun
          | some v =>
            dsimp only at hrun
            cases hvi : versionToInt v with
            | none =>
              rw [show versionGe (versionToInt v) (some 94) = false by
                    rw [hvi]; rfl] at hrun
              simp only [Bool.false_eq_true, if_false] at hrun
              injection hrun with hrun
              injection hrun with h1 h2
              exact absurd h1.symm hne
            | some k =>
              by_cases hk : 94 ≤ k
              · rw [show versionGe (versionToInt v) (some 94) = true by
                      rw [hvi]; simp [versionGe, hk]] at hrun
                simp only [if_true] at hrun
                injection hrun with hrun
                injection hrun with h1 h2
                exact ⟨d, nm, v, k, rfl, rfl, hvi, hk, h1.symm, h2.symm⟩
              · rw [show versionGe (versionToInt v) (some 94) = false by
                      rw [hvi]; simp [versionGe, hk]] at hrun
                simp only [Bool.false_eq_true, if_false] at hrun
                injection hrun with hrun
                injection hrun with h1 h2
                exact absurd h1.symm hne

/-- Witness for C8: an instance with no flat configuration file is left
untouched by the 1.0.86 step. -/
theorem claim_C8_witness :
    v1_0_86_instance ⟨3, "ghosler-app", "/srv/app", "online"⟩
        [(nestedConfigPath, FData.config ⟨some "release", some "ghosler-app", some 2369⟩),
         (packageJsonPath, FData.pkg (some "ghosler") (some "1.0.83"))]
      = some ([(nestedConfigPath, FData.config ⟨some "release", some "ghosler-app", some 2369⟩),
               (packageJsonPath, FData.pkg (some "ghosler") (some "1.0.83"))], []) :=
  (claim_C8 ⟨3, "ghosler-app", "/srv/app", "online"⟩
      [(nestedConfigPath, FData.config ⟨some "release", some "ghosler-app", some 2369⟩),
       (packageJsonPath, FData.pkg (some "ghosler") (some "1.0.83"))]).1 (by decide)

theorem fsGet_cons (e : FsPath × FData) (l : Fs) (p : FsPath) :
    fsGet (e :: l) p = if e.1 = p then some e.2 else fsGet l p := by
  unfold fsGet
  by_cases he : e.1 = p
  · simp [List.find?, he]
  · simp [List.find?, he]

theorem fsGet_eq_none_of_keys (l : Fs) (p : FsPath) (h : ∀ e ∈ l, e.1 ≠ p) :
    fsGet l p = none := by
  induction l with
  | nil => rfl
  | cons e l ih =>
    rw [fsGet_cons, if_neg (h e (List.mem_cons_self e l))]
    exact ih (fun t ht => h t (List.mem_cons_of_mem e ht))

theorem fsGet_filter (f : FsPath → Bool) (fs : Fs) (p : FsPath) (hp : f p = true) :
    fsGet (fs.filter (fun e => f e.1)) p = fsGet fs p := by
  induction fs with
  | nil => rfl
  | cons e l ih =>
    rw [List.filter_cons]
    by_cases hfe : (f e.1) = true
    · rw [if_pos (by rw [hfe]), fsGet_cons, fsGet_cons, ih]
    · have hne : e.1 ≠ p := fun hh => hfe (hh ▸ hp)
      rw [if_neg (by rw [Bool.not_eq_true] at hfe; rw [hfe]; simp), fsGet_cons,
        if_neg hne, ih]

theorem fsGet_filter_none (f : FsPath → Bool) (fs : Fs) (p : FsPath) (hp : f p = false) :
    fsGet (fs.filter (fun e => f e.1)) p = none := by
  induction fs with
  | nil => rfl
  | cons e l ih =>
    rw [List.filter_cons]
    by_cases hfe : (f e.1) = true
    · have hne : e.1 ≠ p := fun hh => by rw [hh, hp] at hfe; exact Bool.noConfusion hfe
      rw [if_pos (by rw [hfe]), fsGet_cons, if_neg hne]
      exact ih
    · rw [if_neg (by rw [Bool.not_eq_true] at hfe; rw [hfe]; simp)]
      exact ih

theorem fsGet_append (l1 l2 : Fs) (p : FsPath) :
    fsGet (l1 ++ l2) p = (fsGet l1 p).or (fsGet l2 p) := by
  unfold fsGet
  rw [List.find?_append]
  cases List.find? (fun e => decide (e.1 = p)) l1 <;> simp [Option.or]

theorem fsGet_fsRemove_keep (q : FsPath) (fs : Fs) (p : FsPath)
    (h : q.isPrefixOf p = false) : fsGet (fsRemove q fs) p = fsGet fs p :=
  fsGet_filter (fun x => !(q.isPrefixOf x)) fs p (by simp [h])

theorem fsGet_fsRemove_gone (q : FsPath) (fs : Fs) (p : FsPath)
    (h : q.isPrefixOf p = true) : fsGet (fsRemove q fs) p = none :=
  fsGet_filter_none (fun x => !(q.isPrefixOf x)) fs p (by simp [h])

theorem fsGet_fsSet_eq (q : FsPath) (d : FData) (fs : Fs) :
    fsGet (fsSet q d fs) q = some d := by
  unfold fsSet
  rw [fsGet_cons, if_pos rfl]

theorem fsGet_fsSet_ne (q : FsPath) (d : FData) (fs : Fs) (p : FsPath) (h : q ≠ p) :
    fsGet (fsSet q d fs) p = fsGet fs p := by
  unfold fsSet
  rw [fsGet_cons, if_neg h]
  exact fsGet_filter (fun x => !(decide (x = q))) fs p
    (by simp; exact fun hh => h hh.symm)

theorem copyEntries_keys (src dest : FsPath) (exclude : List String) (fs : Fs) :
    ∀ c2 ∈ copyEntries src dest exclude fs, ∃ rel, c2.1 = dest ++ rel := by
  intro c2 hc2
  rcases List.mem_filterMap.mp hc2 with ⟨e, _, hmap⟩
  cases hu : underDir src e.1 with
  | none => rw [hu] at hmap; exact Option.noConfusion hmap
  | some rel =>
    rw [hu] at hmap
    dsimp only at hmap
    by_cases ha : allowedRel exclude rel = true
    · rw [if_pos ha] at hmap
      injection hmap with hmap
      exact ⟨rel, by rw [← hmap]⟩
    · rw [if_neg ha] at hmap
      exact Option.noConfusion hmap

theorem fsGet_copyFolder_of_ne (src dest : FsPath) (exclude : List String) (fs : Fs)
    (p : FsPath) (h : ∀ rel, dest ++ rel ≠ p) :
    fsGet (copyFolder src dest exclude fs) p = fsGet fs p := by
  unfold copyFolder
  have hkeys : ∀ c2 ∈ copyEntries src dest exclude fs, c2.1 ≠ p := by
    intro c2 hc2
    rcases copyEntries_keys src dest exclude fs c2 hc2 with ⟨rel, hrel⟩
    rw [hrel]
    exact h rel
  have hany : (copyEntries src dest exclude fs).any
      (fun c2 => decide (c2.1 = p)) = false := by
    cases hh : (copyEntries src dest exclude fs).any (fun c2 => decide (c2.1 = p)) with
    | false => rfl
    | true =>
      rcases List.any_eq_true.mp hh with ⟨c2, hc2, hd⟩
      exact absurd (of_decide_eq_true hd) (hkeys c2 hc2)
  rw [fsGet_append,
    fsGet_filter (fun x => !((copyEntries src dest exclude fs).any
      (fun c2 => decide (c2.1 = x)))) fs p (by simp [hany]),
    fsGet_eq_none_of_keys _ p hkeys, Option.or_none]

theorem fsGet_addUnder_of_ne (dir : FsPath) (sub : Fs) (fs : Fs) (p : FsPath)
    (h : ∀ s2 ∈ sub, dir ++ s2.1 ≠ p) :
    fsGet (addUnder dir sub fs) p = fsGet fs p := by
  unfold addUnder
  have hkeys : ∀ e ∈ sub.map (fun s2 => (dir ++ s2.1, s2.2)), e.1 ≠ p := by
    intro e he
    rcases List.mem_map.mp he with ⟨s2, hs2, hmap⟩
    rw [← hmap]
    exact h s2 hs2
  have hany : (sub.any (fun s2 => decide (dir ++ s2.1 = p))) = false := by
    cases hh : sub.any (fun s2 => decide (dir ++ s2.1 = p)) with
    | false => rfl
    | true =>
      rcases List.any_eq_true.mp hh with ⟨s2, hs2, hd⟩
      exact absurd (of_decide_eq_true hd) (h s2 hs2)
  rw [fsGet_append,
    fsGet_filter (fun x => !(sub.any (fun s2 => decide (dir ++ s2.1 = x)))) fs p
      (by simp [hany]),
    fsGet_eq_none_of_keys _ p hkeys, Option.or_none]

theorem fsGet_saveFiles_of_outside (ts : String) (fs : Fs) (p : FsPath)
    (h1 : tempBackupDir.isPrefixOf p = false) (h2 : artifactPath ts ≠ p) :
    fsGet (saveFiles ts fs) p = fsGet fs p := by
  unfold saveFiles
  rw [fsGet_fsRemove_keep _ _ _ h1,
    fsGet_fsSet_ne _ _ _ _ h2,
    fsGet_copyFolder_of_ne _ _ _ _ _ ?_,
    fsGet_fsRemove_keep _ _ _ h1]
  intro rel hrel
  have hpre : tempBackupDir.isPrefixOf (tempBackupDir ++ rel) = true :=
    List.isPrefixOf_iff_prefix.mpr (List.prefix_append _ _)
  rw [hrel, h1] at hpre
  exact Bool.noConfusion hpre

/-- Counterexample to C5 as stated: a leftover `.temp-backup/stale` file —
outside the scratch directory — exists before the update; extraction
fails; yet afterwards the file is gone (the backup step cleared it before
extraction even ran), so not every file outside the scratch directory is
left unchanged, and the scratch directory is not the only thing removed. -/
theorem claim_C5_counterexample :
    fsGet [([".temp-backup", "stale"], FData.text "x")] [".temp-backup", "stale"]
      = some (FData.text "x") ∧
    scratchDir.isPrefixOf [".temp-backup", "stale"] = false ∧
    (updateRun "ghosler-app" ⟨"T", true, false, [], true⟩
        [([".temp-backup", "stale"], FData.text "x")]).2.2
      = UpdateReport.extractFailed ∧
    fsGet (updateRun "ghosler-app" ⟨"T", true, false, [], true⟩
        [([".temp-backup", "stale"], FData.text "x")]).1 [".temp-backup", "stale"]
      = none := by
  refine ⟨?_, ?_, ?_, ?_⟩ <;> decide

/-- C5 (amended): when the archive was fetched but extraction into the
scratch directory fails, the update aborts before the ignore-list
deletion and the move step (the performed steps are exactly backup,
clone, extract, remove-scratch); every prior file outside the scratch
directory, the backup staging directory `.temp-backup` and the new backup
artifact's own path keeps its prior content; everything under the
scratch directory is removed; and the backup artifact exists. -/
theorem claim_C5_amended (name : String) (env : UpdateEnv) (fs : Fs)
    (hclone : env.cloneOk = true) (hext : env.extractOk = false) :
    (updateRun name env fs).2.1
      = [UpdateAction.backup, UpdateAction.clone, UpdateAction.extract,
         UpdateAction.removeScratch] ∧
    (updateRun name env fs).2.2 = UpdateReport.extractFailed ∧
    (∀ p : FsPath, scratchDir.isPrefixOf p = false →
        tempBackupDir.isPrefixOf p = false → artifactPath env.ts ≠ p →
        fsGet (updateRun name env fs).1 p = fsGet fs p) ∧
    (∀ p : FsPath, scratchDir.isPrefixOf p = true →
        fsGet (updateRun name env fs).1 p = none) ∧
    fsGet (updateRun name env fs).1 (artifactPath env.ts) = some FData.zipMark := by
  have hrun : updateRun name env fs
      = (fsRemove scratchDir (addUnder scratchDir env.extractFiles (saveFiles env.ts fs)),
         [UpdateAction.backup, UpdateAction.clone, UpdateAction.extract,
          UpdateAction.removeScratch],
         UpdateReport.extractFailed) := by
    unfold updateRun
    rw [hclone, hext]
    rfl
  rw [hrun]
  refine ⟨rfl, rfl, ?_, ?_, ?_⟩
  · intro p hscr htmp hart
    have haddp : ∀ s2 ∈ env.extractFiles, scratchDir ++ s2.1 ≠ p := by
      intro s2 _ hh
      have hpre : scratchDir.isPrefixOf (scratchDir ++ s2.1) = true :=
        List.isPrefixOf_iff_prefix.mpr (List.prefix_append _ _)
      rw [hh, hscr] at hpre
      exact Bool.noConfusion hpre
    rw [fsGet_fsRemove_keep _ _ _ hscr,
      fsGet_addUnder_of_ne _ _ _ _ haddp,
      fsGet_saveFiles_of_outside _ _ _ htmp hart]
  · intro p hscr
    exact fsGet_fsRemove_gone _ _ _ hscr
  · have hscr : scratchDir.isPrefixOf (artifactPath env.ts) = false := rfl
    have htmp : tempBackupDir.isPrefixOf (artifactPath env.ts) = false := rfl
    have haddp : ∀ s2 ∈ env.extractFiles, scratchDir ++ s2.1 ≠ artifactPath env.ts := by
      intro s2 _ hh
      have hpre : scratchDir.isPrefixOf (scratchDir ++ s2.1) = true :=
        List.isPrefixOf_iff_prefix.mpr (List.prefix_append _ _)
      rw [hh, hscr] at hpre
      exact Bool.noConfusion hpre
    rw [fsGet_fsRemove_keep _ _ _ hscr,
      fsGet_addUnder_of_ne _ _ _ _ haddp]
    unfold saveFiles
    rw [fsGet_fsRemove_keep _ _ _ htmp, fsGet_fsSet_eq]

/-- Witness for C5 (amended) at a one-file instance: the failed-extraction
run performs no deletion or move step and leaves the prior `app.js`
intact. -/
theorem claim_C5_amended_witness :
    (updateRun "ghosler-app" ⟨"T", true, false, [], true⟩
        [(["app.js"], FData.text "x")]).2.1
      = [UpdateAction.backup, UpdateAction.clone, UpdateAction.extract,
         UpdateAction.removeScratch] ∧
    fsGet (updateRun "ghosler-app" ⟨"T", true, false, [], true⟩
        [(["app.js"], FData.text "x")]).1 ["app.js"] = some (FData.text "x") := by
  have h := claim_C5_amended "ghosler-app" ⟨"T", true, false, [], true⟩
      [(["app.js"], FData.text "x")] rfl rfl
  refine ⟨h.1, ?_⟩
  rw [h.2.2.1 ["app.js"] (by decide) (by decide) (by decide)]
  decide

/-- Witness for C3 (amended): latest `1.1.0` against installed `1.0.5`
is lexicographically greater, so the update path runs. -/
theorem claim_C3_amended_witness :
    checkVersionFs "1.1.0" [(packageJsonPath, FData.pkg (some "ghosler") (some "1.0.5"))]
      = CheckResult.doUpdate "1.1.0" ∧
    performUpdateFs "ghosler-app" "1.1.0" ⟨"T", true, true, [], true⟩
        [(packageJsonPath, FData.pkg (some "ghosler") (some "1.0.5"))]
      = updateRun "ghosler-app" ⟨"T", true, true, [], true⟩
          [(packageJsonPath, FData.pkg (some "ghosler") (some "1.0.5"))] := by
  have h := claim_C3_amended "ghosler-app" "1.1.0" ⟨"T", true, true, [], true⟩
      [(packageJsonPath, FData.pkg (some "ghosler") (some "1.0.5"))] "1.0.5" (by decide)
  have h1 := h.1.mpr ⟨by decide, by decide⟩
  exact ⟨h1, h.2 h1⟩

/-- Witness for C6 at an empty registry cache: the flow is exactly the
supervisor delete followed by the warning, with no deletion. -/
theorem claim_C6_witness :
    (uninstallTask [] "foo").head? = some (UninstallAction.pm2Delete "foo") ∧
    uninstallTask [] "foo" = [UninstallAction.pm2Delete "foo", UninstallAction.warnSkip] := by
  have h := claim_C6 [] "foo"
  exact ⟨h.1, h.2.1 (by decide)⟩
